import Mathlib

/-!
Verification development for `memoize3.py`, a single-file command memoizer.

The Python source is shallowly embedded below.  The ambient filesystem,
the `os.path.abspath` resolution (which depends on the current working
directory) and the raw `strace` output of a command are abstracted into an
`Env` record of pure functions; everything else (the normpath algorithm,
the greedy regex matchers, the trace-parsing loop, the relevance filter,
the up-to-date check, the store logic and the memoization decision) is
translated line by line from the source.

Python values that can be either a float timestamp or the string
sentinel `'bad_modtime'` are modelled by the inductive `MTime`; a hash
that can be a hex digest or `None` is modelled by `Option String`.
`Option` results model uncaught Python exceptions where the source can
raise (the bare `int(...)` call in `generate_deps`, `pickle.load` in
`read_deps`).
-/

/-- Result of `modtime(fname)` in the source: either a real filesystem
timestamp (`good`) or the string sentinel `'bad_modtime'` returned on any
failure (`bad`).  Python equality between a float and a string is always
`False`, which the derived equality on this inductive reproduces. -/
inductive MTime where
  | good (t : Int)
  | bad
deriving DecidableEq, Repr

/-- One entry of a stored dependency list: `(fname, hash_digest, mtime)`
as appended by `generate_deps`. -/
abbrev FileRecord := String × Option String × MTime

/-- The value stored for one command: the list of `FileRecord`s. -/
abbrev DepSet := List FileRecord

/-- The in-memory dependency dictionary: Python `dict` keyed by the
command string, modelled as an association list in insertion order with
unique keys (all operations below preserve Python `dict` semantics). -/
abbrev Deps := List (String × DepSet)

/-- Python `d.get(k)`: the value at the first matching key, if any. -/
def dictGet {α : Type} : List (String × α) → String → Option α
  | [], _ => none
  | (k', v) :: rest, k => if k' = k then some v else dictGet rest k

/-- Python `d[k] = v`: replace the value at an existing key in place,
otherwise append the new binding (insertion-order semantics). -/
def dictInsert {α : Type} : List (String × α) → String → α → List (String × α)
  | [], k, v => [(k, v)]
  | (k', v') :: rest, k, v =>
      if k' = k then (k, v) :: rest else (k', v') :: dictInsert rest k v

/-- Python `del d[k]`: drop every binding of the key. -/
def dictRemove {α : Type} (d : List (String × α)) (k : String) : List (String × α) :=
  d.filter (fun p => decide (p.1 ≠ k))

/-- Python `k in d`. -/
def dictContains {α : Type} (d : List (String × α)) (k : String) : Bool :=
  (dictGet d k).isSome

/-- Python `s.split(sep)` for a one-character separator, on char lists:
`''.split('/') = ['']`, `'/'.split('/') = ['', '']`, etc. -/
def splitOnChar (c : Char) : List Char → List (List Char)
  | [] => [[]]
  | a :: rest =>
      let r := splitOnChar c rest
      if a = c then [] :: r
      else
        match r with
        | [] => [[a]]
        | h :: t => (a :: h) :: t

/-- Python `'/'.join(comps)` on char lists. -/
def joinSlash : List (List Char) → List Char
  | [] => []
  | [x] => x
  | x :: y :: xs => x ++ '/' :: joinSlash (y :: xs)

/-- The component loop of Python `posixpath.normpath`: skips empty and
`'.'` components, keeps a `'..'` that cannot be popped (relative path
start, or following another kept `'..'`), and otherwise pops the last
kept component. -/
def normComps (initSlashes : Nat) : List (List Char) → List (List Char) → List (List Char)
  | acc, [] => acc
  | acc, comp :: rest =>
      if comp = [] ∨ comp = ['.'] then normComps initSlashes acc rest
      else if comp ≠ ['.', '.'] ∨ (initSlashes = 0 ∧ acc = []) ∨
              (acc ≠ [] ∧ acc.getLast? = some ['.', '.']) then
        normComps initSlashes (acc ++ [comp]) rest
      else if acc ≠ [] then normComps initSlashes acc.dropLast rest
      else normComps initSlashes acc rest

/-- Python `posixpath.normpath` on char lists: empty path becomes `'.'`,
one or three-plus leading slashes collapse to one, exactly two are kept,
components are normalized by `normComps`, and an empty result becomes
`'.'`. -/
def normpathL (s : List Char) : List Char :=
  if s = [] then ['.']
  else
    let initSlashes : Nat :=
      match s with
      | '/' :: '/' :: '/' :: _ => 1
      | '/' :: '/' :: _ => 2
      | '/' :: _ => 1
      | _ => 0
    let comps := splitOnChar '/' s
    let res := List.replicate initSlashes '/' ++ joinSlash (normComps initSlashes [] comps)
    if res = [] then ['.'] else res

/-- The `os.path.normpath(...)` call applied to every matched path in
`generate_deps`. -/
def normpath (p : String) : String := String.mk (normpathL p.data)

/-- All positions at which `pat` occurs as a contiguous sublist of `s`
(ascending). -/
def strOccs (pat s : List Char) : List Nat :=
  (List.range (s.length + 1)).filter (fun i => pat.isPrefixOf (s.drop i))

/-- Greedy capture of Python `re.match` for a pattern of shape
`.*K(.*)M.*` (e.g. `.*open\("(.*)", .*` with `K = open("` and
`M = ", `): the leading `.*` is greedy, so the last occurrence of `K`
that still allows a later `M` wins, and the capture group is greedy, so
it extends to the last occurrence of `M` after that `K`. -/
def greedyCap (K M s : List Char) : Option (List Char) :=
  let occK := strOccs K s
  let occM := strOccs M s
  match (occK.filter (fun i => occM.any (fun j => decide (i + K.length ≤ j)))).getLast? with
  | none => none
  | some i =>
      match (occM.filter (fun j => decide (i + K.length ≤ j))).getLast? with
      | none => none
      | some j => some ((s.drop (i + K.length)).take (j - (i + K.length)))

/-- Greedy capture of Python `re.match` for the rename pattern
`.*rename\(".*", "(.*)"`: last viable occurrence of `rename("`, then the
inner `.*` is greedy (last viable occurrence of `", "`), then the
capture extends to the last following `"`. -/
def greedyCapRename (s : List Char) : Option (List Char) :=
  let K := "rename(\"".data
  let M := "\", \"".data
  let occK := strOccs K s
  let occM := strOccs M s
  let occQ := strOccs ['"'] s
  let okJ : Nat → Bool := fun j => occQ.any (fun k => decide (j + M.length ≤ k))
  match (occK.filter (fun i =>
      occM.any (fun j => decide (i + K.length ≤ j) && okJ j))).getLast? with
  | none => none
  | some i =>
      match (occM.filter (fun j => decide (i + K.length ≤ j) && okJ j)).getLast? with
      | none => none
      | some j =>
          match (occQ.filter (fun k => decide (j + M.length ≤ k))).getLast? with
          | none => none
          | some k => some ((s.drop (j + M.length)).take (k - (j + M.length)))

/-- Matcher for `r'.*open\("(.*)", .*'`. -/
def capOpen (line : String) : Option String :=
  (greedyCap "open(\"".data "\", ".data line.data).map (fun cs => String.mk cs)

/-- Matcher for `r'.*stat64\("(.*)", .*'`. -/
def capStat64 (line : String) : Option String :=
  (greedyCap "stat64(\"".data "\", ".data line.data).map (fun cs => String.mk cs)

/-- Matcher for `r'.*rename\(".*", "(.*)"'`. -/
def capRename (line : String) : Option String :=
  (greedyCapRename line.data).map (fun cs => String.mk cs)

/-- Matcher for `r'.*stat\("(.*)", .*'`. -/
def capStat (line : String) : Option String :=
  (greedyCap "stat(\"".data "\", ".data line.data).map (fun cs => String.mk cs)

/-- Matcher for `r'.*openat\(AT_FDCWD, "(.*)", .*'`. -/
def capOpenat (line : String) : Option String :=
  (greedyCap "openat(AT_FDCWD, \"".data "\", ".data line.data).map (fun cs => String.mk cs)

/-- The `regexes` list of `generate_deps`, in source order. -/
def matchers : List (String → Option String) :=
  [capOpen, capStat64, capRename, capStat, capOpenat]

/-- Matcher for `r'.*exit_group\((.*)\).*'`, checked against every line
inside the inner loop of `generate_deps`. -/
def capExit (line : String) : Option String :=
  (greedyCap "exit_group(".data ")".data line.data).map (fun cs => String.mk cs)

/-- Digit run to a number, `none` when empty or a non-digit appears. -/
def digitsToNat (ds : List Char) : Option Nat :=
  if ds = [] then none
  else
    ds.foldl (fun acc c =>
      acc.bind (fun a =>
        if '0' ≤ c ∧ c ≤ '9' then some (a * 10 + (c.toNat - '0'.toNat)) else none))
      (some 0)

/-- Python `int(s)` on a string: strips surrounding whitespace, accepts
an optional sign and a nonempty digit run, and raises (here: `none`)
otherwise.  The raw `int(match.group(1))` call in `generate_deps` has no
exception handler, so `none` aborts the whole parse. -/
def pyInt (s : String) : Option Int :=
  let ws : Char → Bool := fun c => decide (c = ' ' ∨ c = '\t' ∨ c = '\n' ∨ c = '\r')
  let t := ((s.data.dropWhile ws).reverse.dropWhile ws).reverse
  match t with
  | '-' :: ds => (digitsToNat ds).map (fun n => -(n : Int))
  | '+' :: ds => (digitsToNat ds).map (fun n => (n : Int))
  | ds => (digitsToNat ds).map (fun n => (n : Int))

/-- The ambient state the script reads from the operating system: path
resolution (`os.path.abspath`, which depends on the working directory),
the regular-file test (`os.path.isfile`), the two fingerprint readings
(`hash_file`, which is `none` when the file is missing or unreadable,
and `modtime`, which is `MTime.bad` when `os.path.getmtime` fails), and
the raw strace output lines produced for a command. -/
structure Env where
  abspath : String → String
  isfile : String → Bool
  hash_file : String → Option String
  modtime : String → MTime
  trace : String → List String

/-- The global configuration of a run: `opt_use_modtime` (the
`--timestamps` flag), `opt_dirs` (`--directory` roots) and `ignore_dirs`
(`--ignore` roots). -/
structure Config where
  opt_use_modtime : Bool
  opt_dirs : List String
  ignore_dirs : List String

/-- Python `path1.startswith(path2)`: `path2` is a character prefix of
`path1`. -/
def startswith (path1 path2 : String) : Bool :=
  path2.data.isPrefixOf path1.data

/-- The source's `is_relevant`: absolutize the file name, reject when
some absolutized ignore root is a string prefix of it, accept when some
absolutized monitored root is a string prefix of it, reject by default.
The source guards the ignore loop with `if ignore_dirs:`, which is
equivalent to `List.any` on a possibly empty list. -/
def is_relevant (env : Env) (cfg : Config) (fname : String) : Bool :=
  let path1 := env.abspath fname
  if cfg.ignore_dirs.any (fun d => startswith path1 (env.abspath d)) then false
  else cfg.opt_dirs.any (fun d => startswith path1 (env.abspath d))

/-- The source's `files_up_to_date`: `False` for `None`, else every
record must have an unchanged active-mode fingerprint (`modtime` in
timestamp mode, `hash_file` otherwise); the loop's early `return False`
is `List.all`. -/
def files_up_to_date (env : Env) (cfg : Config) : Option DepSet → Bool
  | none => false
  | some fs =>
      fs.all (fun r =>
        if cfg.opt_use_modtime then decide (env.modtime r.1 = r.2.2)
        else decide (env.hash_file r.1 = r.2.1))

/-- Python truthiness of the `files` value in
`if files and files_up_to_date(files)`: `None` and the empty list are
falsy. -/
def truthyFiles : Option DepSet → Bool
  | none => false
  | some fs => !fs.isEmpty

/-- The mutable state of the parsing loop in `generate_deps`:
`status`, `files` and the key set of `files_dict` (insertion order). -/
structure PState where
  status : Int
  files : List FileRecord
  seen : List String
deriving DecidableEq, Repr

/-- One iteration of the inner `for regex in regexes:` loop of
`generate_deps` for a fixed line: try the path matcher `m`, normalize
and conditionally append the matched path, then re-match the
`exit_group` regex against the same line (the source performs the exit
check inside the inner loop); `none` models the uncaught exception of
`int(...)` on a non-numeric capture. -/
def step_matcher (env : Env) (cfg : Config) (line : String) (st : PState)
    (m : String → Option String) : Option PState :=
  let st1 :=
    match m line with
    | some cap =>
        let fname := normpath cap
        if !(decide (fname ∈ st.seen)) && is_relevant env cfg fname && env.isfile fname then
          { st with
            files := st.files ++ [(fname, env.hash_file fname, env.modtime fname)],
            seen := st.seen ++ [fname] }
        else st
    | none => st
  match capExit line with
  | some cap =>
      match pyInt cap with
      | some n => some { st1 with status := n }
      | none => none
  | none => some st1

/-- The body of the outer `for line in output:` loop of
`generate_deps`. -/
def step_line (env : Env) (cfg : Config) (st : PState) (line : String) : Option PState :=
  matchers.foldlM (step_matcher env cfg line) st

/-- The whole parsing loop of `generate_deps` over the strace output,
starting from `status = 0`, empty `files`, empty `files_dict`. -/
def parse_lines (env : Env) (cfg : Config) (output : List String) : Option PState :=
  output.foldlM (step_line env cfg) ⟨0, [], []⟩

/-- The source's `generate_deps`: run the command under strace (the raw
lines are `env.trace cmd`), parse them, and return
`(status, files)`; `none` models the uncaught `int(...)` exception. -/
def generate_deps (env : Env) (cfg : Config) (cmd : String) : Option (Int × List FileRecord) :=
  (parse_lines env cfg (env.trace cmd)).map (fun st => (st.status, st.files))

/-- Token alphabet of the serialized store blob.  The on-disk format of
`pickle` is implementation-defined; modelled from the spec: "Persisted
state format: an opaque serialized mapping ... format is
implementation-defined but must round-trip mapping[Command] →
DependencySet exactly across save/load."  A blob that is not a valid
encoding models a corrupt pickle file. -/
inductive Tok where
  | tn (n : Nat)
  | ti (i : Int)
  | ts (s : String)
  | tnone
  | tbad
deriving DecidableEq, Repr

/-- Serialization of one `modtime` value. -/
def pickleMTime : MTime → List Tok
  | .good t => [Tok.ti t]
  | .bad => [Tok.tbad]

/-- Serialization of one hash value. -/
def pickleOptStr : Option String → List Tok
  | none => [Tok.tnone]
  | some s => [Tok.ts s]

/-- Serialization of one `FileRecord`. -/
def pickleRecord : FileRecord → List Tok
  | (p, h, m) => Tok.ts p :: (pickleOptStr h ++ pickleMTime m)

/-- Serialization of a dependency list, length-prefixed. -/
def pickleRecords (l : DepSet) : List Tok :=
  Tok.tn l.length :: (l.map pickleRecord).flatten

/-- Serialization of one store entry. -/
def pickleEntry : String × DepSet → List Tok
  | (c, l) => Tok.ts c :: pickleRecords l

/-- Serialization of the whole dependency dictionary (`pickle.dump`). -/
def pickleDeps (d : Deps) : List Tok :=
  Tok.tn d.length :: (d.map pickleEntry).flatten

/-- Deserialization of one `modtime` value. -/
def unpickleMTime : List Tok → Option (MTime × List Tok)
  | Tok.ti t :: rest => some (.good t, rest)
  | Tok.tbad :: rest => some (.bad, rest)
  | _ => none

/-- Deserialization of one hash value. -/
def unpickleOptStr : List Tok → Option (Option String × List Tok)
  | Tok.tnone :: rest => some (none, rest)
  | Tok.ts s :: rest => some (some s, rest)
  | _ => none

/-- Deserialization of one `FileRecord`. -/
def unpickleRecord : List Tok → Option (FileRecord × List Tok)
  | Tok.ts p :: rest =>
      match unpickleOptStr rest with
      | some (h, r2) =>
          match unpickleMTime r2 with
          | some (m, r3) => some ((p, h, m), r3)
          | none => none
      | none => none
  | _ => none

/-- Deserialization of a counted dependency list. -/
def unpickleRecords : Nat → List Tok → Option (DepSet × List Tok)
  | 0, rest => some ([], rest)
  | n + 1, rest =>
      match unpickleRecord rest with
      | some (r, r2) =>
          match unpickleRecords n r2 with
          | some (l, r3) => some (r :: l, r3)
          | none => none
      | none => none

/-- Deserialization of one store entry. -/
def unpickleEntry : List Tok → Option ((String × DepSet) × List Tok)
  | Tok.ts c :: Tok.tn n :: rest =>
      (unpickleRecords n rest).map (fun p => ((c, p.1), p.2))
  | _ => none

/-- Deserialization of a counted entry list. -/
def unpickleEntries : Nat → List Tok → Option (Deps × List Tok)
  | 0, rest => some ([], rest)
  | n + 1, rest =>
      match unpickleEntry rest with
      | some (e, r2) =>
          match unpickleEntries n r2 with
          | some (d, r3) => some (e :: d, r3)
          | none => none
      | none => none

/-- Deserialization of the whole dictionary (`pickle.load`): `none`
models the exception `pickle.load` raises on a corrupt blob. -/
def unpickleDeps (toks : List Tok) : Option Deps :=
  match toks with
  | Tok.tn n :: rest =>
      match unpickleEntries n rest with
      | some (d, _) => some d
      | none => none
  | _ => none

/-- State of the store path on disk, as `read_deps` can encounter it:
no file (`open` raises `FileNotFoundError`), a file that cannot be
opened (`open` raises `PermissionError`), or an openable file holding a
blob. -/
inductive StoreFile where
  | absent
  | unreadable
  | present (blob : List Tok)
deriving DecidableEq, Repr

/-- The source's `read_deps`: the `try` block wraps only the `open`
call, so an absent or unreadable file is caught and yields `{}`, while
`pickle.load` on an openable but corrupt file raises with no handler
(`Except.error ()`). -/
def read_deps (fsys : String → StoreFile) (depsname : String) : Except Unit Deps :=
  match fsys depsname with
  | .absent => .ok []
  | .unreadable => .ok []
  | .present blob =>
      match unpickleDeps blob with
      | some d => .ok d
      | none => .error ()

/-- The source's `write_deps`: open the store path for writing and dump
the whole dictionary, overwriting previous content. -/
def write_deps (fsys : String → StoreFile) (depsname : String) (deps : Deps) :
    String → StoreFile :=
  fun n => if n = depsname then .present (pickleDeps deps) else fsys n

/-- The test `if files and files_up_to_date(files)` of
`memoize_with_deps`, with Python truthiness of `deps.get(cmd)`. -/
def cache_hit (env : Env) (cfg : Config) (deps : Deps) (cmd : String) : Bool :=
  truthyFiles (dictGet deps cmd) && files_up_to_date env cfg (dictGet deps cmd)

/-- Observable outcome of one `memoize_with_deps` call: the returned
status, the final in-memory dictionary, whether `write_deps` was called
(with that final dictionary), and whether the command was executed
(i.e. `generate_deps` ran it under strace). -/
structure MemoOutcome where
  status : Int
  deps : Deps
  wrote : Bool
  executed : Bool
deriving DecidableEq, Repr

/-- The source's `memoize_with_deps`: on a hit, print "up to date" and
return 0 with the store untouched; otherwise run the command, replace
the entry on success, delete it (when present) on failure, write the
store, and return the command's status.  `none` models the uncaught
`int(...)` exception inside `generate_deps`. -/
def memoize_with_deps (env : Env) (cfg : Config) (deps : Deps) (cmd : String) :
    Option MemoOutcome :=
  if cache_hit env cfg deps cmd then
    some ⟨0, deps, false, false⟩
  else
    match generate_deps env cfg cmd with
    | none => none
    | some (status, fs) =>
        let deps2 :=
          if status = 0 then dictInsert deps cmd fs
          else if dictContains deps cmd then dictRemove deps cmd
          else deps
        some ⟨status, deps2, true, true⟩

/-- Modelled from the spec and the documented Python `argparse`
semantics of the source's `parser.add_argument('-d', '--directory',
action='append', default=['.'])`: an `append` action appends each
supplied value to the default list object, so the parsed value is the
default followed by the supplied values. -/
def argparse_append (dflt : List String) (given : List String) : List String :=
  dflt ++ given

/-- The `--directory` default of the source: `['.']`. -/
def directory_default : List String := ["."]

/-- The include roots `opt_dirs = args.directory` obtained when the user
supplies the list `given` of `--directory` values. -/
def opt_dirs_of (given : List String) : List String :=
  argparse_append directory_default given

/-- The fresh `FileRecord` appended for a path:
`(fname, hash_file(fname), modtime(fname))`. -/
def fingerprintOf (env : Env) (n : String) : FileRecord :=
  (n, env.hash_file n, env.modtime n)

/-- The filter `is_relevant(fname) and os.path.isfile(fname)` applied to
a candidate path in `generate_deps`. -/
def relevantName (env : Env) (cfg : Config) (n : String) : Bool :=
  is_relevant env cfg n && env.isfile n

/-- Candidate paths contributed by the matchers of `ms` on one line, in
matcher order: each matcher's capture, normalized, kept when relevant
and a regular file. -/
def capsNames (env : Env) (cfg : Config) (ms : List (String → Option String))
    (line : String) : List String :=
  ((ms.filterMap (fun m => m line)).map normpath).filter (relevantName env cfg)

/-- Candidate paths of one line under the full matcher list. -/
def lineNames (env : Env) (cfg : Config) (line : String) : List String :=
  capsNames env cfg matchers line

/-- Candidate paths of the whole strace output, line by line. -/
def candNames (env : Env) (cfg : Config) (output : List String) : List String :=
  (output.map (lineNames env cfg)).flatten

/-- First-occurrence deduplication relative to an already-seen set. -/
def dedupFrom (seen : List String) : List String → List String
  | [] => []
  | n :: rest =>
      if n ∈ seen then dedupFrom seen rest
      else n :: dedupFrom (seen ++ [n]) rest

/-- Last element of a list, with a default: the value a variable holds
after being overwritten by each element in turn. -/
def lastD (l : List Int) (d : Int) : Int :=
  match l with
  | [] => d
  | a :: rest => lastD rest a

/-- The integers of the exit-code events of the output, in order: one
per line matching the `exit_group` regex with a capture `int(...)`
accepts. -/
def exitsOf (output : List String) : List Int :=
  output.filterMap (fun l => (capExit l).bind pyInt)

/-- Formalization of the claim wording "the first matching pattern wins
for that line": only the first matcher of the ordered list that matches
contributes its (normalized, filtered) path. -/
def lineNamesFirstWin (env : Env) (cfg : Config) (line : String) : List String :=
  (((matchers.filterMap (fun m => m line)).head?).toList.map normpath).filter
    (relevantName env cfg)

/-- The dependency sequence predicted by the claim wording: first-wins
per line, first-seen order, duplicates suppressed, fingerprints taken
per kept path. -/
def filesFirstWin (env : Env) (cfg : Config) (output : List String) : List FileRecord :=
  (dedupFrom [] ((output.map (lineNamesFirstWin env cfg)).flatten)).map (fingerprintOf env)

/-- Environment builder for concrete test runs: identity `abspath`,
every path is a regular file, constant fingerprints, fixed trace. -/
def mkEnv (h : String → Option String) (m : String → MTime) (tr : String → List String) :
    Env :=
  ⟨id, fun _ => true, h, m, tr⟩

/-- Concrete run: every file hashes to `"h"` with mtime 3; empty trace. -/
def envHit : Env := mkEnv (fun _ => some "h") (fun _ => MTime.good 3) (fun _ => [])

/-- Concrete run: every file is missing or unreadable (hash `None`,
mtime `'bad_modtime'`); the traced command exits with status 2. -/
def envNone : Env := mkEnv (fun _ => none) (fun _ => MTime.bad) (fun _ => ["exit_group(2) = ?"])

/-- Concrete run whose single trace line matches both the `open` and
the `stat` regexes with different captures. -/
def envTwo : Env :=
  mkEnv (fun _ => some "H") (fun _ => MTime.good 7) (fun _ => ["stat(\"/a\", open(\"/b\", 0"])

/-- Concrete run whose single trace line records the relative path
`a`. -/
def envRel : Env :=
  mkEnv (fun _ => some "H") (fun _ => MTime.good 7) (fun _ => ["open(\"a\", 0) = 3"])

/-- Hash mode, everything relevant (the empty string is a prefix of
every absolutized path), nothing ignored. -/
def cfgH : Config := ⟨false, [""], []⟩

/-- Hash mode, include root `/inc`, ignore root `/inc/sub`. -/
def cfgPrec : Config := ⟨false, ["/inc"], ["/inc/sub"]⟩

/-- A disk on which every path is absent. -/
def fsAbsent : String → StoreFile := fun _ => StoreFile.absent

/-- A disk on which every path holds an openable but corrupt blob:
`[Tok.tbad]` is not a valid encoding of a dictionary. -/
def fsCorrupt : String → StoreFile := fun _ => StoreFile.present [Tok.tbad]

theorem dictGet_insert_self {α : Type} (d : List (String × α)) (k : String) (v : α) :
    dictGet (dictInsert d k v) k = some v := by
  induction d with
  | nil => simp [dictInsert, dictGet]
  | cons p rest ih =>
      obtain ⟨k', v'⟩ := p
      by_cases hk : k' = k
      · simp [dictInsert, hk, dictGet]
      · simp [dictInsert, hk, dictGet, ih]

theorem dictGet_insert_ne {α : Type} (d : List (String × α)) (k k' : String) (v : α)
    (h : k' ≠ k) : dictGet (dictInsert d k v) k' = dictGet d k' := by
  induction d with
  | nil => simp [dictInsert, dictGet, Ne.symm h]
  | cons p rest ih =>
      obtain ⟨k0, v0⟩ := p
      by_cases hk : k0 = k
      · subst hk
        simp [dictInsert, dictGet, Ne.symm h]
      · simp [dictInsert, hk, dictGet, ih]

theorem dictGet_remove_self {α : Type} (d : List (String × α)) (k : String) :
    dictGet (dictRemove d k) k = none := by
  unfold dictRemove
  induction d with
  | nil => rfl
  | cons p rest ih =>
      obtain ⟨k0, v0⟩ := p
      rw [List.filter_cons]
      by_cases hk : k0 = k
      · subst hk
        simpa using ih
      · simpa [hk, dictGet] using ih

theorem dictGet_remove_ne {α : Type} (d : List (String × α)) (k k' : String)
    (h : k' ≠ k) : dictGet (dictRemove d k) k' = dictGet d k' := by
  unfold dictRemove
  induction d with
  | nil => rfl
  | cons p rest ih =>
      obtain ⟨k0, v0⟩ := p
      rw [List.filter_cons]
      simp only [decide_not] at ih
      by_cases hk : k0 = k
      · subst hk
        simp [dictGet, Ne.symm h, ih]
      · simp [hk, dictGet, ih]

theorem dictGet_none_of_contains_false {α : Type} (d : List (String × α)) (k : String)
    (h : dictContains d k = false) : dictGet d k = none := by
  cases hg : dictGet d k with
  | none => rfl
  | some v => rw [dictContains, hg] at h; simp at h

theorem dedupFrom_append (xs : List String) :
    ∀ (seen ys : List String),
      dedupFrom seen (xs ++ ys) =
        dedupFrom seen xs ++ dedupFrom (seen ++ dedupFrom seen xs) ys := by
  induction xs with
  | nil => intro seen ys; simp [dedupFrom]
  | cons x xs ih =>
      intro seen ys
      by_cases hx : x ∈ seen
      · simp only [List.cons_append, dedupFrom, List.append_eq]
        rw [if_pos hx, if_pos hx, ih]
      · simp only [List.cons_append, dedupFrom, List.append_eq]
        rw [if_neg hx, if_neg hx, ih]
        simp [List.append_assoc]

theorem mem_of_mem_dedupFrom :
    ∀ (l seen : List String) (x : String), x ∈ dedupFrom seen l → x ∈ l := by
  intro l
  induction l with
  | nil => intro seen x h; simp [dedupFrom] at h
  | cons a l ih =>
      intro seen x h
      by_cases ha : a ∈ seen
      · simp only [dedupFrom, if_pos ha] at h
        exact List.mem_cons_of_mem a (ih seen x h)
      · simp only [dedupFrom, if_neg ha] at h
        rcases List.mem_cons.mp h with h | h
        · exact h ▸ List.mem_cons_self a l
        · exact List.mem_cons_of_mem a (ih (seen ++ [a]) x h)

theorem lastD_append :
    ∀ (l₁ l₂ : List Int) (d : Int), lastD (l₁ ++ l₂) d = lastD l₂ (lastD l₁ d) := by
  intro l₁
  induction l₁ with
  | nil => intro l₂ d; simp [lastD]
  | cons a l ih => intro l₂ d; simp [lastD, ih]

theorem unpickleMTime_pickle (m : MTime) (rest : List Tok) :
    unpickleMTime (pickleMTime m ++ rest) = some (m, rest) := by
  cases m <;> rfl

theorem unpickleOptStr_pickle (h : Option String) (rest : List Tok) :
    unpickleOptStr (pickleOptStr h ++ rest) = some (h, rest) := by
  cases h <;> rfl

theorem unpickleRecord_pickle (r : FileRecord) (rest : List Tok) :
    unpickleRecord (pickleRecord r ++ rest) = some (r, rest) := by
  obtain ⟨p, h, m⟩ := r
  cases h <;> cases m <;> rfl

theorem unpickleRecords_pickle (l : DepSet) :
    ∀ rest : List Tok,
      unpickleRecords l.length ((l.map pickleRecord).flatten ++ rest) = some (l, rest) := by
  induction l with
  | nil => intro rest; rfl
  | cons r l ih =>
      intro rest
      simp [unpickleRecords, List.append_assoc, unpickleRecord_pickle, ih]

theorem unpickleEntry_pickle (e : String × DepSet) (rest : List Tok) :
    unpickleEntry (pickleEntry e ++ rest) = some (e, rest) := by
  obtain ⟨c, l⟩ := e
  simp [pickleEntry, pickleRecords, unpickleEntry, List.append_assoc, unpickleRecords_pickle]

theorem unpickleEntries_pickle (d : Deps) :
    ∀ rest : List Tok,
      unpickleEntries d.length ((d.map pickleEntry).flatten ++ rest) = some (d, rest) := by
  induction d with
  | nil => intro rest; rfl
  | cons e d ih =>
      intro rest
      simp [unpickleEntries, List.append_assoc, unpickleEntry_pickle, ih]

theorem unpickleDeps_pickleDeps (d : Deps) : unpickleDeps (pickleDeps d) = some d := by
  have h := unpickleEntries_pickle d []
  rw [List.append_nil] at h
  simp [unpickleDeps, pickleDeps, h]

theorem capsNames_cons (env : Env) (cfg : Config) (m : String → Option String)
    (ms : List (String → Option String)) (line : String) :
    capsNames env cfg (m :: ms) line = capsNames env cfg [m] line ++ capsNames env cfg ms line := by
  unfold capsNames
  cases hm : m line with
  | none => simp [List.filterMap_cons, hm]
  | some c =>
      cases hrel : relevantName env cfg (normpath c) <;>
        simp [List.filterMap_cons, hm, List.filter_cons, hrel]

theorem step_matcher_some (env : Env) (cfg : Config) (line : String) (st : PState)
    (m : String → Option String) (r : PState)
    (h : step_matcher env cfg line st m = some r) :
    r.files = st.files ++ (dedupFrom st.seen (capsNames env cfg [m] line)).map (fingerprintOf env)
      ∧ r.seen = st.seen ++ dedupFrom st.seen (capsNames env cfg [m] line)
      ∧ r.status = ((capExit line).bind pyInt).getD st.status := by
  have hnames : capsNames env cfg [m] line =
      match m line with
      | some c =>
          if relevantName env cfg (normpath c) then [normpath c] else []
      | none => [] := by
    unfold capsNames
    cases hm : m line with
    | none => simp [List.filterMap_cons, hm]
    | some c => simp [List.filterMap_cons, hm, List.filter_cons]
  unfold step_matcher at h
  cases hm : m line with
  | none =>
      simp only [hm] at hnames
      rw [hnames]
      simp only [hm] at h
      simp only [dedupFrom, List.append_nil, List.map_nil]
      cases he : capExit line with
      | none =>
          simp only [he, Option.some.injEq] at h
          subst h
          simp
      | some ec =>
          cases hp : pyInt ec with
          | none => simp [he, hp] at h
          | some n =>
              simp only [he, hp, Option.some.injEq] at h
              subst h
              simp [he, hp]
  | some c =>
      simp only [hm] at hnames
      rw [hnames]
      simp only [hm] at h
      by_cases hrel : relevantName env cfg (normpath c)
      · rw [if_pos hrel]
        by_cases hseen : normpath c ∈ st.seen
        · have hcond : (!(decide (normpath c ∈ st.seen)) &&
              is_relevant env cfg (normpath c) && env.isfile (normpath c)) = false := by
            simp [hseen]
          simp only [hcond, Bool.false_eq_true, if_false] at h
          simp only [dedupFrom, if_pos hseen, List.append_nil, List.map_nil]
          cases he : capExit line with
          | none =>
              simp only [he, Option.some.injEq] at h
              subst h
              simp
          | some ec =>
              cases hp : pyInt ec with
              | none => simp [he, hp] at h
              | some n =>
                  simp only [he, hp, Option.some.injEq] at h
                  subst h
                  simp [he, hp]
        · have hcond : (!(decide (normpath c ∈ st.seen)) &&
              is_relevant env cfg (normpath c) && env.isfile (normpath c)) = true := by
            have hri : (is_relevant env cfg (normpath c) && env.isfile (normpath c)) = true := hrel
            rw [Bool.and_assoc, hri]
            simp [hseen]
          simp only [hcond, if_true] at h
          simp only [dedupFrom, if_neg hseen]
          cases he : capExit line with
          | none =>
              simp only [he, Option.some.injEq] at h
              subst h
              simp [dedupFrom, fingerprintOf]
          | some ec =>
              cases hp : pyInt ec with
              | none => simp [he, hp] at h
              | some n =>
                  simp only [he, hp, Option.some.injEq] at h
                  subst h
                  simp [he, hp, dedupFrom, fingerprintOf]
      · have hcond : (!(decide (normpath c ∈ st.seen)) &&
            is_relevant env cfg (normpath c) && env.isfile (normpath c)) = false := by
          have hri : (is_relevant env cfg (normpath c) && env.isfile (normpath c)) = false := by
            simpa [relevantName] using hrel
          rw [Bool.and_assoc, hri]
          simp
        simp only [hcond, Bool.false_eq_true, if_false] at h
        rw [if_neg hrel]
        simp only [dedupFrom, List.append_nil, List.map_nil]
        cases he : capExit line with
        | none =>
            simp only [he, Option.some.injEq] at h
            subst h
            simp
        | some ec =>
            cases hp : pyInt ec with
            | none => simp [he, hp] at h
            | some n =>
                simp only [he, hp, Option.some.injEq] at h
                subst h
                simp [he, hp]

theorem foldlM_step_matcher (env : Env) (cfg : Config) (line : String) :
    ∀ (ms : List (String → Option String)) (st r : PState),
      ms.foldlM (step_matcher env cfg line) st = some r →
      r.files = st.files ++ (dedupFrom st.seen (capsNames env cfg ms line)).map (fingerprintOf env)
      ∧ r.seen = st.seen ++ dedupFrom st.seen (capsNames env cfg ms line)
      ∧ r.status = (if ms.isEmpty then st.status else ((capExit line).bind pyInt).getD st.status) := by
  intro ms
  induction ms with
  | nil =>
      intro st r h
      simp only [List.foldlM_nil, Option.pure_def, Option.some.injEq] at h
      subst h
      simp [capsNames, dedupFrom]
  | cons m ms ih =>
      intro st r h
      rw [List.foldlM_cons] at h
      cases hstep : step_matcher env cfg line st m with
      | none => rw [hstep] at h; simp at h
      | some s1 =>
          rw [hstep] at h
          simp only [Option.pure_def, Option.bind_eq_bind, Option.some_bind] at h
          obtain ⟨hf1, hs1, hst1⟩ := step_matcher_some env cfg line st m s1 hstep
          obtain ⟨hf, hs, hst⟩ := ih s1 r h
          refine ⟨?_, ?_, ?_⟩
          · rw [hf, hf1, hs1, capsNames_cons env cfg m ms line, dedupFrom_append,
              List.map_append, List.append_assoc]
          · rw [hs, hs1, capsNames_cons env cfg m ms line, dedupFrom_append,
              List.append_assoc]
          · rw [hst, hst1]
            simp only [List.isEmpty_cons, Bool.false_eq_true, if_false]
            cases ms with
            | nil => simp
            | cons m2 ms2 =>
                simp only [List.isEmpty_cons, Bool.false_eq_true, if_false]
                cases he : (capExit line).bind pyInt <;> simp [he]

theorem step_line_some (env : Env) (cfg : Config) (st : PState) (line : String) (r : PState)
    (h : step_line env cfg st line = some r) :
    r.files = st.files ++ (dedupFrom st.seen (lineNames env cfg line)).map (fingerprintOf env)
    ∧ r.seen = st.seen ++ dedupFrom st.seen (lineNames env cfg line)
    ∧ r.status = ((capExit line).bind pyInt).getD st.status := by
  obtain ⟨hf, hs, hst⟩ := foldlM_step_matcher env cfg line matchers st r h
  refine ⟨hf, hs, ?_⟩
  rw [hst]
  simp [matchers]

theorem foldlM_step_line (env : Env) (cfg : Config) :
    ∀ (output : List String) (st r : PState),
      output.foldlM (step_line env cfg) st = some r →
      r.files = st.files ++ (dedupFrom st.seen (candNames env cfg output)).map (fingerprintOf env)
      ∧ r.seen = st.seen ++ dedupFrom st.seen (candNames env cfg output)
      ∧ r.status = lastD (exitsOf output) st.status := by
  intro output
  induction output with
  | nil =>
      intro st r h
      simp only [List.foldlM_nil, Option.pure_def, Option.some.injEq] at h
      subst h
      simp [candNames, exitsOf, dedupFrom, lastD]
  | cons line rest ih =>
      intro st r h
      rw [List.foldlM_cons] at h
      cases hstep : step_line env cfg st line with
      | none => rw [hstep] at h; simp at h
      | some s1 =>
          rw [hstep] at h
          simp only [Option.pure_def, Option.bind_eq_bind, Option.some_bind] at h
          obtain ⟨hf1, hs1, hst1⟩ := step_line_some env cfg st line s1 hstep
          obtain ⟨hf, hs, hst⟩ := ih s1 r h
          have hcand : candNames env cfg (line :: rest) =
              lineNames env cfg line ++ candNames env cfg rest := by
            simp [candNames]
          refine ⟨?_, ?_, ?_⟩
          · rw [hf, hf1, hs1, hcand, dedupFrom_append, List.map_append, List.append_assoc]
          · rw [hs, hs1, hcand, dedupFrom_append, List.append_assoc]
          · rw [hst, hst1]
            cases he : (capExit line).bind pyInt with
            | none => simp [exitsOf, List.filterMap_cons, he]
            | some n => simp [exitsOf, List.filterMap_cons, he, lastD]

theorem parse_lines_char (env : Env) (cfg : Config) (output : List String) (st : PState)
    (h : parse_lines env cfg output = some st) :
    st.files = (dedupFrom [] (candNames env cfg output)).map (fingerprintOf env)
    ∧ st.seen = dedupFrom [] (candNames env cfg output)
    ∧ st.status = lastD (exitsOf output) 0 := by
  have := foldlM_step_line env cfg output ⟨0, [], []⟩ st h
  simpa using this

/-- C7, amended: loading the store returns the deserialized mapping when
the file is present and well-formed, and returns an empty mapping when
the file is absent or cannot be opened; but a file that opens and then
fails to deserialize (corrupt) raises out of `read_deps` instead of
yielding an empty mapping. -/
theorem c7_read_deps_cases (fsys : String → StoreFile) (name : String) :
    (fsys name = StoreFile.absent → read_deps fsys name = Except.ok []) ∧
    (fsys name = StoreFile.unreadable → read_deps fsys name = Except.ok []) ∧
    (∀ blob d, fsys name = StoreFile.present blob → unpickleDeps blob = some d →
      read_deps fsys name = Except.ok d) ∧
    (∀ blob, fsys name = StoreFile.present blob → unpickleDeps blob = none →
      read_deps fsys name = Except.error ()) := by
  refine ⟨?_, ?_, ?_, ?_⟩
  · intro h; unfold read_deps; rw [h]
  · intro h; unfold read_deps; rw [h]
  · intro blob d h hu; unfold read_deps; rw [h]; simp [hu]
  · intro blob h hu; unfold read_deps; rw [h]; simp [hu]

/-- C7, counterexample to the claim as stated: on a store file that is
openable but corrupt, `read_deps` raises (the `try` only wraps `open`,
not `pickle.load`), rather than returning the empty mapping. -/
theorem c7_counterexample :
    read_deps fsCorrupt ".deps3" = Except.error () ∧
      (Except.error () : Except Unit Deps) ≠ Except.ok [] := by
  constructor
  · rfl
  · intro h; cases h

/-- C7, witness: on an absent store file, loading yields the empty
mapping without raising. -/
theorem c7_witness : read_deps fsAbsent ".deps3" = Except.ok [] :=
  (c7_read_deps_cases fsAbsent ".deps3").1 rfl

/-- C8: saving a dependency mapping and loading it back from the same
path yields a mapping equal to the original (every command key maps to
an equal dependency list, hence equal `FileRecord` fields in either
mode). -/
theorem c8_store_round_trip (fsys : String → StoreFile) (name : String) (d : Deps) :
    read_deps (write_deps fsys name d) name = Except.ok d := by
  unfold read_deps write_deps
  simp [unpickleDeps_pickleDeps]

/-- C10: because the `--directory` option's `append` action appends to
its default list `['.']`, the parsed include roots are always `'.'`
followed by the supplied values: `'.'` is an include root in every
invocation and supplying `--directory` never replaces the default. -/
theorem c10_directory_appends_default (given : List String) :
    opt_dirs_of given = "." :: given ∧ "." ∈ opt_dirs_of given := by
  constructor
  · rfl
  · exact List.mem_cons_self "." given

/-- C1, amended: a stored command is reported up to date (exit code 0,
no execution, no store rewrite) exactly when its stored dependency list
is present, NON-EMPTY, and every record's active-mode fingerprint is
unchanged; an absent key, an empty stored list, or any mismatch leads to
the miss path, which executes the command and rewrites the store.  (The
source tests `if files and files_up_to_date(files)`, and an empty list
is falsy in Python, so a present key with an empty, vacuously matching
list is a miss, contrary to the claim as stated.) -/
theorem c1_hit_characterization (env : Env) (cfg : Config) (deps : Deps) (cmd : String) :
    (cache_hit env cfg deps cmd = true ↔
      ∃ fs, dictGet deps cmd = some fs ∧ fs ≠ [] ∧ files_up_to_date env cfg (some fs) = true)
    ∧ (cache_hit env cfg deps cmd = true →
        memoize_with_deps env cfg deps cmd = some ⟨0, deps, false, false⟩)
    ∧ (cache_hit env cfg deps cmd = false →
        ∀ r, memoize_with_deps env cfg deps cmd = some r →
          r.executed = true ∧ r.wrote = true) := by
  refine ⟨?_, ?_, ?_⟩
  · constructor
    · intro h
      unfold cache_hit at h
      cases hg : dictGet deps cmd with
      | none => rw [hg] at h; simp [truthyFiles] at h
      | some fs =>
          rw [hg] at h
          have h' : truthyFiles (some fs) = true ∧
              files_up_to_date env cfg (some fs) = true := by simpa using h
          obtain ⟨h1, h2⟩ := h'
          refine ⟨fs, rfl, ?_, h2⟩
          intro hfs
          subst hfs
          simp [truthyFiles] at h1
    · rintro ⟨fs, hg, hne, hutd⟩
      unfold cache_hit
      rw [hg]
      simp [truthyFiles, hutd, hne]
  · intro h
    unfold memoize_with_deps
    rw [if_pos h]
  · intro h r hr
    unfold memoize_with_deps at hr
    rw [if_neg (by simp [h])] at hr
    cases hg : generate_deps env cfg cmd with
    | none => rw [hg] at hr; simp at hr
    | some p =>
        obtain ⟨status, fs⟩ := p
        rw [hg] at hr
        simp only [Option.some.injEq] at hr
        subst hr
        exact ⟨rfl, rfl⟩

/-- C1, counterexample to the claim as stated: with the store holding an
empty dependency list for the command, every record vacuously matches
(`files_up_to_date` is `true`) and the key is present, yet the engine
takes the miss path: it executes the command and rewrites the store. -/
theorem c1_counterexample :
    dictGet [("c", ([] : DepSet))] "c" = some [] ∧
    files_up_to_date envHit cfgH (some []) = true ∧
    memoize_with_deps envHit cfgH [("c", [])] "c" = some ⟨0, [("c", [])], true, true⟩ := by
  refine ⟨rfl, rfl, ?_⟩
  decide

/-- C1, witness: a present, non-empty, fingerprint-matching entry is a
hit: exit 0, store untouched, command not executed. -/
theorem c1_witness :
    memoize_with_deps envHit cfgH [("c", [("p", some "h", MTime.good 3)])] "c" =
      some ⟨0, [("c", [("p", some "h", MTime.good 3)])], false, false⟩ :=
  (c1_hit_characterization envHit cfgH [("c", [("p", some "h", MTime.good 3)])] "c").2.1
    (by decide)

/-- C2: on every miss on which the traced run completes, the engine
executes the command; a zero exit replaces the store entry for the
command with the freshly computed dependency list, a nonzero exit
removes any existing entry; in both cases the store is written and the
command's exit status is returned; other keys are untouched. -/
theorem c2_miss_updates_store (env : Env) (cfg : Config) (deps : Deps) (cmd : String)
    (status : Int) (fs : DepSet)
    (hmiss : cache_hit env cfg deps cmd = false)
    (hgen : generate_deps env cfg cmd = some (status, fs)) :
    ∃ r, memoize_with_deps env cfg deps cmd = some r ∧
      r.status = status ∧ r.executed = true ∧ r.wrote = true ∧
      (status = 0 → dictGet r.deps cmd = some fs ∧
        ∀ k, k ≠ cmd → dictGet r.deps k = dictGet deps k) ∧
      (status ≠ 0 → dictGet r.deps cmd = none ∧
        ∀ k, k ≠ cmd → dictGet r.deps k = dictGet deps k) := by
  unfold memoize_with_deps
  rw [if_neg (by simp [hmiss]), hgen]
  refine ⟨_, rfl, rfl, rfl, rfl, ?_, ?_⟩
  · intro h0
    subst h0
    simp only [if_pos rfl]
    exact ⟨dictGet_insert_self deps cmd fs,
      fun k hk => dictGet_insert_ne deps cmd k fs hk⟩
  · intro hne
    simp only [if_neg hne]
    by_cases hc : dictContains deps cmd = true
    · simp only [hc, if_true]
      exact ⟨dictGet_remove_self deps cmd, fun k hk => dictGet_remove_ne deps cmd k hk⟩
    · have hc' : dictContains deps cmd = false := by simpa using hc
      simp only [hc', Bool.false_eq_true, if_false]
      exact ⟨dictGet_none_of_contains_false deps cmd hc', fun k hk => True.intro⟩

/-- C2, witness: a stale entry plus a traced run exiting 2 yields status
2, execution, a store write, and removal of the entry. -/
theorem c2_witness :
    ∃ r, memoize_with_deps envNone cfgH [("c", [("p", some "h", MTime.good 1)])] "c" = some r ∧
      r.status = 2 ∧ r.executed = true ∧ r.wrote = true ∧
      ((2 : Int) = 0 → dictGet r.deps "c" = some [] ∧
        ∀ k, k ≠ "c" → dictGet r.deps k = dictGet [("c", [("p", some "h", MTime.good 1)])] k) ∧
      ((2 : Int) ≠ 0 → dictGet r.deps "c" = none ∧
        ∀ k, k ≠ "c" → dictGet r.deps k = dictGet [("c", [("p", some "h", MTime.good 1)])] k) :=
  c2_miss_updates_store envNone cfgH [("c", [("p", some "h", MTime.good 1)])] "c" 2 []
    (by decide) (by decide)

/-- C3, amended: a recorded file that is missing or unreadable at check
time forces the up-to-date check to fail, PROVIDED the stored
active-mode fingerprint is itself a real value (a present hash digest in
hash mode, a real timestamp in timestamp mode); when the stored
fingerprint is already the failure value, the failed recomputation
compares equal and the record counts as unchanged, contrary to the claim
as stated. -/
theorem c3_missing_file_forces_miss (env : Env) (cfg : Config) (fs : DepSet)
    (p : String) (h : Option String) (m : MTime)
    (hmem : (p, h, m) ∈ fs)
    (hgone : env.hash_file p = none ∧ env.modtime p = MTime.bad)
    (hstored : (cfg.opt_use_modtime = true → m ≠ MTime.bad) ∧
      (cfg.opt_use_modtime = false → h ≠ none)) :
    files_up_to_date env cfg (some fs) = false := by
  unfold files_up_to_date
  refine List.all_eq_false.mpr ⟨(p, h, m), hmem, ?_⟩
  cases hmode : cfg.opt_use_modtime with
  | true =>
      have hm := hstored.1 hmode
      simp [hgone.2, Ne.symm hm]
  | false =>
      have hh := hstored.2 hmode
      simp [hgone.1, Ne.symm hh]

/-- C3, counterexample to the claim as stated: a record whose stored
hash is already the failure value `None` (recorded from an unreadable
file) compares equal to the failed recomputation, so the check reports
up to date even though the file is missing or unreadable at check
time. -/
theorem c3_counterexample :
    envNone.hash_file "p" = none ∧ envNone.modtime "p" = MTime.bad ∧
    files_up_to_date envNone cfgH (some [("p", none, MTime.good 1)]) = true := by
  exact ⟨rfl, rfl, rfl⟩

/-- C3, witness: a record with a real stored hash whose file is missing
or unreadable at check time makes the check fail. -/
theorem c3_witness :
    files_up_to_date envNone cfgH (some [("p", some "h", MTime.good 1)]) = false :=
  c3_missing_file_forces_miss envNone cfgH [("p", some "h", MTime.good 1)]
    "p" (some "h") (MTime.good 1) (List.mem_singleton.mpr rfl) ⟨rfl, rfl⟩ (by decide)

/-- C4: the relevance filter absolutizes the path, rejects it when any
absolutized exclude root is a string prefix of it, otherwise accepts it
iff some absolutized include root is a string prefix of it (default
deny); in particular a path under both an include and an exclude root is
rejected (exclude precedence). -/
theorem c4_relevance_filter (env : Env) (cfg : Config) (fname : String) :
    (is_relevant env cfg fname = true ↔
      ((∀ d ∈ cfg.ignore_dirs, startswith (env.abspath fname) (env.abspath d) = false) ∧
        ∃ d ∈ cfg.opt_dirs, startswith (env.abspath fname) (env.abspath d) = true))
    ∧ ((∃ d ∈ cfg.ignore_dirs, startswith (env.abspath fname) (env.abspath d) = true) →
        is_relevant env cfg fname = false) := by
  unfold is_relevant
  by_cases hig : cfg.ignore_dirs.any (fun d => startswith (env.abspath fname) (env.abspath d)) = true
  · rw [if_pos hig]
    constructor
    · constructor
      · intro hfalse; cases hfalse
      · rintro ⟨hall, -⟩
        rcases List.any_eq_true.mp hig with ⟨d, hd, hsw⟩
        have := hall d hd
        rw [this] at hsw
        cases hsw
    · intro _; rfl
  · rw [if_neg hig]
    have hall : ∀ d ∈ cfg.ignore_dirs, startswith (env.abspath fname) (env.abspath d) = false := by
      intro d hd
      cases hv : startswith (env.abspath fname) (env.abspath d) with
      | false => rfl
      | true => exact absurd (List.any_eq_true.mpr ⟨d, hd, hv⟩) hig
    constructor
    · constructor
      · intro hany
        exact ⟨hall, List.any_eq_true.mp hany⟩
      · rintro ⟨-, d, hd, hsw⟩
        exact List.any_eq_true.mpr ⟨d, hd, hsw⟩
    · rintro ⟨d, hd, hsw⟩
      have := hall d hd
      rw [this] at hsw
      cases hsw

/-- C4, witness: `/inc/sub/x` lies under the include root `/inc` and the
exclude root `/inc/sub`, and is rejected. -/
theorem c4_witness : is_relevant envHit cfgPrec "/inc/sub/x" = false :=
  (c4_relevance_filter envHit cfgPrec "/inc/sub/x").2
    ⟨"/inc/sub", by decide, by decide⟩

/-- C5: the exit status returned by the trace parse of `generate_deps`
equals the integer of the last exit-code (`exit_group`) event of the
trace, independently of any path matches, and defaults to 0 when no
exit-code event appears. -/
theorem c5_exit_code_last_event (env : Env) (cfg : Config) (cmd : String)
    (status : Int) (fs : List FileRecord)
    (h : generate_deps env cfg cmd = some (status, fs)) :
    status = lastD (exitsOf (env.trace cmd)) 0 := by
  unfold generate_deps at h
  cases hp : parse_lines env cfg (env.trace cmd) with
  | none => rw [hp] at h; simp at h
  | some st =>
      rw [hp] at h
      simp only [Option.map_some', Option.some.injEq, Prod.mk.injEq] at h
      rw [← h.1]
      exact (parse_lines_char env cfg (env.trace cmd) st hp).2.2

/-- C5, witness: a trace containing the single exit event
`exit_group(2)` yields status 2. -/
theorem c5_witness : (2 : Int) = lastD (exitsOf (envNone.trace "c")) 0 :=
  c5_exit_code_last_event envNone cfgH "c" 2 [] (by decide)

/-- Helper: the file list produced by a completed `generate_deps` run
is the deduplicated, normalized, filtered candidate sequence, mapped
through the fingerprint pair. -/
theorem generate_deps_files_eq (env : Env) (cfg : Config) (cmd : String)
    (status : Int) (fs : List FileRecord)
    (h : generate_deps env cfg cmd = some (status, fs)) :
    fs = (dedupFrom [] (candNames env cfg (env.trace cmd))).map (fingerprintOf env) := by
  unfold generate_deps at h
  cases hp : parse_lines env cfg (env.trace cmd) with
  | none => rw [hp] at h; simp at h
  | some st =>
      rw [hp] at h
      simp only [Option.map_some', Option.some.injEq, Prod.mk.injEq] at h
      rw [← h.2]
      exact (parse_lines_char env cfg (env.trace cmd) st hp).1

/-- C6, amended: the parser applies EVERY matcher of the fixed ordered
list (open, stat64, rename destination, stat, openat-at-cwd) to each
line — the source has no break, so a line matching several patterns
contributes every capture, not only the first — normalizes each matched
path, filters by relevance and regular-file status, and emits the
records in first-seen order with duplicates by path suppressed (first
occurrence wins). -/
theorem c6_all_matchers_dedup (env : Env) (cfg : Config) (cmd : String)
    (status : Int) (fs : List FileRecord)
    (h : generate_deps env cfg cmd = some (status, fs)) :
    fs = (dedupFrom [] (candNames env cfg (env.trace cmd))).map (fingerprintOf env) :=
  generate_deps_files_eq env cfg cmd status fs h

/-- C6, counterexample to the claim as stated: the line
`stat("/a", open("/b", 0` matches both the `open` regex (capture `/b`)
and the `stat` regex (capture `/a", open("/b`); the source applies both
matchers, producing two records, while first-matching-pattern-wins
semantics (`filesFirstWin`) predicts only the first. -/
theorem c6_counterexample :
    generate_deps envTwo cfgH "c" =
      some (0, [("/b", some "H", MTime.good 7), ("/a\", open(\"/b", some "H", MTime.good 7)]) ∧
    filesFirstWin envTwo cfgH (envTwo.trace "c") = [("/b", some "H", MTime.good 7)] := by
  constructor
  · decide
  · decide

/-- C6, witness: the two-capture line produces exactly the
deduplicated, normalized, fingerprint-mapped candidate sequence. -/
theorem c6_witness :
    [(("/b" : String), some "H", MTime.good 7), ("/a\", open(\"/b", some "H", MTime.good 7)] =
      (dedupFrom [] (candNames envTwo cfgH (envTwo.trace "c"))).map (fingerprintOf envTwo) :=
  c6_all_matchers_dedup envTwo cfgH "c" 0 _ (by decide)

/-- C9, amended: every `FileRecord` produced by dependency generation
has a path that is the `normpath` normalization of some matched capture;
the path is NOT necessarily absolute (the source applies
`os.path.normpath`, not `os.path.abspath`, so a relative capture is
stored relative). -/
theorem c9_paths_normalized (env : Env) (cfg : Config) (cmd : String)
    (status : Int) (fs : List FileRecord)
    (h : generate_deps env cfg cmd = some (status, fs)) :
    ∀ r ∈ fs, ∃ cap, r.1 = normpath cap := by
  have hfs := generate_deps_files_eq env cfg cmd status fs h
  intro r hr
  rw [hfs] at hr
  rcases List.mem_map.mp hr with ⟨n, hn, hfp⟩
  have hn2 : n ∈ candNames env cfg (env.trace cmd) := mem_of_mem_dedupFrom _ [] n hn
  unfold candNames at hn2
  rcases List.mem_flatten.mp hn2 with ⟨l, hl, hnl⟩
  rcases List.mem_map.mp hl with ⟨line, -, hline⟩
  rw [← hline] at hnl
  unfold lineNames capsNames at hnl
  have hn3 := List.mem_of_mem_filter hnl
  rcases List.mem_map.mp hn3 with ⟨cap, -, hcap⟩
  exact ⟨cap, by rw [← hfp, ← hcap]; rfl⟩

/-- C9, counterexample to the claim as stated: tracing a command that
opens the relative path `a` stores the record with path `a`, which does
not start with `/` and is therefore not absolute. -/
theorem c9_counterexample :
    generate_deps envRel cfgH "c" = some (0, [("a", some "H", MTime.good 7)]) ∧
    startswith "a" "/" = false := by
  constructor
  · decide
  · decide

/-- C9, witness: the stored path `a` is the normalization of some
capture. -/
theorem c9_witness : ∃ cap, (("a", some "H", MTime.good 7) : FileRecord).1 = normpath cap :=
  c9_paths_normalized envRel cfgH "c" 0 [("a", some "H", MTime.good 7)] (by decide)
    ("a", some "H", MTime.good 7) (by decide)
